import Mathlib

/-!
Shallow embedding of the 13f-project disclosure pipeline.

Each definition mirrors one function of the source repository:

* `parseAmountRange` embeds `SenateDisclosureScraper._parse_amount_range`
  (src/scrapers/congress_disclosure_scraper.py): strings are lists of
  characters, Python `str.replace`/`str.lower` become character-level maps
  and filters, and `re.findall(r'\d+', s)` becomes `digitRuns`.
* `calculateTotals` embeds `AnnualFinancialDisclosure.calculate_totals`
  (same file).
* `addHoldingsWithChanges` embeds `HoldingService.add_holdings_with_changes`
  (src/database/services.py); the records inserted into the ORM session are
  modelled as the returned list.
* `getLatestFilingFinalize` embeds the total/percentage/sort block of
  `SEC13FScraper.get_latest_filing` (src/scrapers/sec_13f_scraper.py), and
  `scrapeFinalize`/`scrapeOne`/`doFullRefresh` embed the corresponding parts
  of src/app.py.  Python float arithmetic is idealized as exact rationals;
  `round(x, 2)` becomes rounding to the nearest multiple of 1/100.
-/

/-! ### Amount-range normalizer: `SenateDisclosureScraper._parse_amount_range` -/

/-- `matchesAt pat s` is true when `pat` is an initial segment of `s`
(character-wise).  Helper for Python's substring test `pat in s`. -/
def matchesAt : List Char → List Char → Bool
  | [], _ => true
  | _ :: _, [] => false
  | a :: as, b :: bs => a == b && matchesAt as bs

/-- `containsSeq pat s` is Python's `pat in s`: `pat` occurs contiguously in
`s`. -/
def containsSeq (pat : List Char) : List Char → Bool
  | [] => matchesAt pat []
  | c :: rest => matchesAt pat (c :: rest) || containsSeq pat rest

/-- ASCII lower-casing of one character, as `str.lower` acts on the ASCII
inputs the scraper feeds it. -/
def lowerChar (c : Char) : Char :=
  if c.toNat ≥ 65 ∧ c.toNat ≤ 90 then Char.ofNat (c.toNat + 32) else c

/-- The fixed regulatory bracket table (`ranges` dict in
`_parse_amount_range`), in its Python insertion order. -/
def bracketTable : List (String × Int × Int) :=
  [("1001 - 15000", (1001, 15000)),
   ("15001 - 50000", (15001, 50000)),
   ("50001 - 100000", (50001, 100000)),
   ("100001 - 250000", (100001, 250000)),
   ("250001 - 500000", (250001, 500000)),
   ("500001 - 1000000", (500001, 1000000)),
   ("1000001 - 5000000", (1000001, 5000000)),
   ("5000001 - 25000000", (5000001, 25000000)),
   ("over 50000000", (50000000, 100000000))]

/-- Numeric value of a decimal digit character. -/
def digitVal (c : Char) : Nat := c.toNat - 48

/-- `int(...)` applied to a run of decimal digit characters. -/
def natOfDigits (ds : List Char) : Nat :=
  ds.foldl (fun n c => n * 10 + digitVal c) 0

/-- Accumulator-passing scan extracting the maximal runs of decimal digits,
in order: the semantics of `re.findall(r'\d+', s)`. -/
def digitRunsAux : List Char → List Char → List (List Char)
  | acc, [] => if acc.isEmpty then [] else [acc.reverse]
  | acc, c :: cs =>
      if c.isDigit then digitRunsAux (c :: acc) cs
      else if acc.isEmpty then digitRunsAux [] cs
      else acc.reverse :: digitRunsAux [] cs

/-- `re.findall(r'\d+', s)`: the maximal digit runs of `s`, left to right. -/
def digitRuns (s : List Char) : List (List Char) := digitRunsAux [] s

/-- `amount_str.replace("$", "").replace(",", "")`. -/
def stripMoneyChars (s : List Char) : List Char :=
  s.filter (fun c => decide (c ≠ '$' ∧ c ≠ ','))

/-- `amount_str.lower().replace(" ", "")`: the string the bracket-table
patterns are searched in. -/
def tableKey (s1 : List Char) : List Char :=
  (s1.map lowerChar).filter (fun c => decide (c ≠ ' '))

/-- `SenateDisclosureScraper._parse_amount_range`: strip `$` and `,`, try the
bracket table against the lower-cased de-spaced string (first match wins, in
insertion order), otherwise fall back to the extracted digit runs. -/
def parseAmountRange (s : List Char) : Int × Int :=
  let s1 := stripMoneyChars s
  match bracketTable.find? (fun e => containsSeq e.1.toList (tableKey s1)) with
  | some e => e.2
  | none =>
      match digitRuns s1 with
      | a :: b :: _ => ((natOfDigits a : Int), (natOfDigits b : Int))
      | [a] => ((natOfDigits a : Int), (natOfDigits a : Int))
      | [] => (0, 0)

/-! ### Net-worth reconciler: `AnnualFinancialDisclosure.calculate_totals` -/

/-- One Schedule A asset line (fields of the `Asset` dataclass that
`calculate_totals` reads, plus its identifying text fields). -/
structure Asset where
  category : String
  description : String
  valueMin : Int
  valueMax : Int
deriving DecidableEq, Repr

/-- One Schedule D liability line. -/
structure Liability where
  description : String
  creditor : Option String
  valueMin : Int
  valueMax : Int
deriving DecidableEq, Repr

/-- The six totals fields `calculate_totals` writes back onto the
`AnnualFinancialDisclosure` object. -/
structure NetWorthTotals where
  totalAssetsMin : Int
  totalAssetsMax : Int
  totalLiabilitiesMin : Int
  totalLiabilitiesMax : Int
  netWorthMin : Int
  netWorthMax : Int
deriving DecidableEq, Repr

/-- `AnnualFinancialDisclosure.calculate_totals`, as a function from the
asset and liability lists to the six computed fields. -/
def calculateTotals (assets : List Asset) (liabilities : List Liability) :
    NetWorthTotals :=
  let tam := (assets.map (·.valueMin)).sum
  let taM := (assets.map (·.valueMax)).sum
  let tlm := (liabilities.map (·.valueMin)).sum
  let tlM := (liabilities.map (·.valueMax)).sum
  { totalAssetsMin := tam
    totalAssetsMax := taM
    totalLiabilitiesMin := tlm
    totalLiabilitiesMax := tlM
    netWorthMin := tam - tlM
    netWorthMax := taM - tlm }

/-! ### Temporal diff engine: `HoldingService.add_holdings_with_changes` -/

/-- One entry of the `holdings_data` list handed to
`add_holdings_with_changes` (the dict keys it reads; `h.get('shares', 0)`
and `h.get('value', 0)` default to 0, so those two are plain integers). -/
structure HoldingIn where
  ticker : Option String
  cusip : Option String
  issuerName : Option String
  shares : Int
  value : Int
  pctPortfolio : Option ℚ
deriving DecidableEq, Repr

/-- A holding row of the previous filing, as read back from the database
(`shares` is a nullable column). -/
structure PrevHolding where
  ticker : Option String
  cusip : Option String
  issuerName : Option String
  shares : Option Int
deriving DecidableEq, Repr

/-- One `Holding` row inserted into the session by
`add_holdings_with_changes`. -/
structure HoldingRec where
  superinvestorId : Int
  filingId : Int
  cusip : Option String
  ticker : Option String
  issuerName : Option String
  shares : Int
  value : Int
  pctPortfolio : Option ℚ
  sharesChange : Option Int
  sharesChangePct : Option ℚ
  isNew : Bool
  isSold : Bool
deriving DecidableEq, Repr

/-- Python's `a or b` on two optional strings: `a` unless it is `None` or
the empty string (both falsy). -/
def pyOrStr : Option String → Option String → Option String
  | some s, b => if s = "" then b else some s
  | none, b => b

/-- The identity key `h.get('ticker') or h.get('cusip')` of a current
holding. -/
def keyOfIn (h : HoldingIn) : Option String := pyOrStr h.ticker h.cusip

/-- The identity key `h.ticker or h.cusip` of a previous holding. -/
def keyOfPrev (p : PrevHolding) : Option String := pyOrStr p.ticker p.cusip

/-- Python dict assignment `d[k] = v`: overwrite in place when the key is
present, append otherwise (dicts preserve insertion order). -/
def dictInsert {κ β : Type} [DecidableEq κ] (d : List (κ × β)) (k : κ)
    (v : β) : List (κ × β) :=
  if d.any (fun kv => decide (kv.1 = k)) then
    d.map (fun kv => if kv.1 = k then (k, v) else kv)
  else d ++ [(k, v)]

/-- Python dict lookup `d.get(k)` over the association list built by
`dictInsert` (keys are unique, so the first hit is the entry). -/
def lookupKey {κ β : Type} [DecidableEq κ] (k : κ) :
    List (κ × β) → Option β
  | [] => none
  | kv :: rest => if kv.1 = k then some kv.2 else lookupKey k rest

/-- `prev_holdings = {h.ticker or h.cusip: h for h in prev}`: a dict built
by successive insertion. -/
def buildPrevMap (prev : List PrevHolding) :
    List (Option String × PrevHolding) :=
  prev.foldl (fun d p => dictInsert d (keyOfPrev p) p) []

/-- Truthiness of the nullable `prev.shares`: `None` and `0` are falsy. -/
def sharesTruthy : Option Int → Bool
  | none => false
  | some n => decide (n ≠ 0)

/-- `-prev_holding.shares if prev_holding.shares else None`. -/
def soldSharesChange : Option Int → Option Int
  | none => none
  | some n => if n = 0 then none else some (-n)

/-- The record built in the main loop of `add_holdings_with_changes` for
one entry of `holdings_data`. -/
def mkCurrentRec (prevMap : List (Option String × PrevHolding))
    (sid fid : Int) (h : HoldingIn) : HoldingRec :=
  let change : Option Int × Option ℚ :=
    match lookupKey (keyOfIn h) prevMap with
    | some prev =>
        let sc := h.shares - (prev.shares.getD 0)
        (some sc,
         if sharesTruthy prev.shares ∧ 0 < prev.shares.getD 0 then
           some ((sc : ℚ) / (prev.shares.getD 0 : ℚ) * 100)
         else none)
    | none => (none, none)
  { superinvestorId := sid
    filingId := fid
    cusip := h.cusip
    ticker := h.ticker
    issuerName := h.issuerName
    shares := h.shares
    value := h.value
    pctPortfolio := h.pctPortfolio
    sharesChange := change.1
    sharesChangePct := change.2
    isNew := decide (lookupKey (keyOfIn h) prevMap = none)
    isSold := false }

/-- The synthetic "sold" record built for a previous holding whose key is
absent from the current filing. -/
def mkSoldRec (sid fid : Int) (p : PrevHolding) : HoldingRec :=
  { superinvestorId := sid
    filingId := fid
    cusip := p.cusip
    ticker := p.ticker
    issuerName := p.issuerName
    shares := 0
    value := 0
    pctPortfolio := some 0
    sharesChange := soldSharesChange p.shares
    sharesChangePct := some (-100)
    isNew := false
    isSold := true }

/-- `HoldingService.add_holdings_with_changes`: the list of `Holding` rows
added to the session — the per-entry records of the main loop followed by
one synthetic sold record per previous-filing key missing from the current
filing (iterated in dict order).  The function's integer return value is
the length of `holdingsData`. -/
def addHoldingsWithChanges (sid fid : Int) (holdingsData : List HoldingIn)
    (prev : List PrevHolding) : List HoldingRec :=
  let prevMap := buildPrevMap prev
  let currentKeys := holdingsData.map keyOfIn
  let currentRecs := holdingsData.map (mkCurrentRec prevMap sid fid)
  let soldRecs :=
    (prevMap.filter (fun kp => decide (kp.1 ∉ currentKeys))).map
      (fun kp => mkSoldRec sid fid kp.2)
  currentRecs ++ soldRecs

/-- The identity key of an output record, computed the same way the next
diff round would compute it. -/
def keyOfRec (r : HoldingRec) : Option String := pyOrStr r.ticker r.cusip

/-! ### Filing finalization: totals, percentages and sorting -/

/-- One parsed holding of the SEC scraper library (`Holding13F` fields that
the finalization block of `get_latest_filing` touches; `value` and `shares`
are parsed from digit strings, hence naturals, matching the spec invariant
`HoldingRecord.value ≥ 0`). -/
structure H13F where
  nameOfIssuer : String
  cusip : String
  value : Nat
  shares : Nat
  pctPortfolio : ℚ
deriving DecidableEq, Repr

/-- Stable descending insertion: walk past strictly larger values, so an
element inserted on top of the already-sorted later part of the document
comes before every equal-valued element, as Python's stable
`sort(reverse=True)` orders ties. -/
def insertValDesc {α : Type} (val : α → Nat) (x : α) : List α → List α
  | [] => [x]
  | y :: ys =>
      if val x < val y then y :: insertValDesc val x ys
      else x :: y :: ys

/-- Stable sort by descending `val`: the semantics of
`holdings.sort(key=..., reverse=True)`. -/
def sortValDesc {α : Type} (val : α → Nat) : List α → List α
  | [] => []
  | x :: xs => insertValDesc val x (sortValDesc val xs)

/-- The filing object assembled at the end of `get_latest_filing` (fields
the claims are about). -/
structure Filing13F where
  totalValue : Nat
  holdings : List H13F
deriving DecidableEq, Repr

/-- The percentage written by `get_latest_filing`:
`(h.value / total_value * 100) if total_value > 0 else 0`. -/
def pct13F (total : Nat) (value : Nat) : ℚ :=
  if 0 < total then (value : ℚ) / (total : ℚ) * 100 else 0

/-- The finalization block of `SEC13FScraper.get_latest_filing`: sum the
values, assign each holding its portfolio percentage, sort descending by
value (stable), and record the total on the filing. -/
def getLatestFilingFinalize (hs : List H13F) : Filing13F :=
  let total := (hs.map (·.value)).sum
  let withPct := hs.map (fun h => { h with pctPortfolio := pct13F total h.value })
  { totalValue := total
    holdings := sortValDesc (·.value) withPct }

/-- One holding dict assembled by `scrape_one` in src/app.py. -/
structure AppHolding where
  cusip : String
  ticker : Option String
  name : String
  value : Nat
  shares : Nat
  pct : ℚ
deriving DecidableEq, Repr

/-- Python `round(x, 2)` idealized over exact rationals: round `100 * x` to
the nearest integer and divide back.  (CPython rounds the binary float half
to even; no claim below depends on the tie direction.) -/
def round2 (x : ℚ) : ℚ := ((round (x * 100) : ℤ) : ℚ) / 100

/-- The percentage written by `scrape_one`:
`round((h["value"] / total) * 100, 2) if total > 0 else 0`. -/
def pctApp (total : Nat) (value : Nat) : ℚ :=
  if 0 < total then round2 ((value : ℚ) / (total : ℚ) * 100) else 0

/-- The result dict of a successful `scrape_one` run (fields the claims are
about). -/
structure ScrapeResult where
  totalValue : Nat
  holdings : List AppHolding
deriving DecidableEq, Repr

/-- The finalization block of `scrape_one` (src/app.py lines 388-391):
total, rounded percentages, stable descending sort by value. -/
def scrapeFinalize (hs : List AppHolding) : ScrapeResult :=
  let total := (hs.map (·.value)).sum
  let withPct := hs.map (fun h => { h with pct := pctApp total h.value })
  { totalValue := total
    holdings := sortValDesc (·.value) withPct }

/-! ### Batch error handling: `scrape_one` / `do_full_refresh` (src/app.py) -/

/-- The static per-entity info (`SUPERINVESTORS` values) that `scrape_one`
copies into its result. -/
structure EntityInfo where
  name : String
  firm : String
deriving DecidableEq, Repr

/-- `scrape_one` from the point where the document has been tokenized into
raw holding entries: an empty list of parsed records returns the non-fatal
`(None, "No holdings parsed")` pair, otherwise the finalized result with a
`None` error.  All failure paths of the Python function return `(None,
message)` pairs — exceptions are caught at the function boundary — so the
embedding is a total function into the same pair type. -/
def scrapeOne (parsed : List AppHolding) :
    Option ScrapeResult × Option String :=
  if parsed.isEmpty then (none, some "No holdings parsed")
  else (some (scrapeFinalize parsed), none)

/-- The mutable cache state that `do_full_refresh` threads through its loop:
`CACHE["details"]` is a dict keyed by cik, `CACHE["failed"]` an append-only
list of `(cik, name, reason)` entries. -/
structure RefreshState where
  details : List (String × ScrapeResult)
  failed : List (String × String × String)
deriving DecidableEq, Repr

/-- One entity of the batch: its cik, static info, and the raw holdings its
document tokenized into. -/
structure Entity where
  cik : String
  info : EntityInfo
  parsed : List AppHolding
deriving DecidableEq, Repr

/-- One iteration of the `do_full_refresh` loop: a successful scrape is
stored under the entity's cik, a failed one is appended to the failure list
with its reason; either way the loop moves on. -/
def refreshStep (st : RefreshState) (e : Entity) : RefreshState :=
  match scrapeOne e.parsed with
  | (some r, _) => { st with details := dictInsert st.details e.cik r }
  | (none, err) =>
      { st with failed := st.failed ++ [(e.cik, e.info.name, err.getD "")] }

/-- `do_full_refresh`: fold the per-entity step over the whole batch,
starting from the freshly cleared cache. -/
def doFullRefresh (entities : List Entity) : RefreshState :=
  entities.foldl refreshStep ⟨[], []⟩

/-! ### Supporting lemmas: substring search and digit runs -/

lemma matchesAt_subset : ∀ (p s : List Char), matchesAt p s = true → ∀ c ∈ p, c ∈ s
  | [], _, _, c, hc => by simp at hc
  | _ :: _, [], h, _, _ => by simp [matchesAt] at h
  | a :: as, b :: bs, h, c, hc => by
      simp only [matchesAt, Bool.and_eq_true, beq_iff_eq] at h
      rcases List.mem_cons.mp hc with rfl | hmem
      · exact h.1 ▸ List.mem_cons_self _ _
      · exact List.mem_cons_of_mem _ (matchesAt_subset as bs h.2 c hmem)

lemma containsSeq_subset : ∀ (p s : List Char), containsSeq p s = true → ∀ c ∈ p, c ∈ s
  | p, [], h, c, hc => by
      cases p with
      | nil => simp at hc
      | cons a as => simp [containsSeq, matchesAt] at h
  | p, b :: bs, h, c, hc => by
      simp only [containsSeq, Bool.or_eq_true] at h
      rcases h with h | h
      · exact matchesAt_subset p (b :: bs) h c hc
      · exact List.mem_cons_of_mem _ (containsSeq_subset p bs h c hc)

/-- A pattern containing a space can never occur in the de-spaced search
string built by `tableKey`: this is why the bracket table of
`_parse_amount_range` can never fire. -/
lemma containsSeq_false_of_space (p s1 : List Char) (hp : ' ' ∈ p) :
    containsSeq p (tableKey s1) = false := by
  refine Bool.eq_false_iff.mpr ?_
  intro htrue
  have hmem := containsSeq_subset p (tableKey s1) htrue ' ' hp
  simp [tableKey, List.mem_filter] at hmem

/-- The bracket-table lookup of `_parse_amount_range` never succeeds, on any
input: every pattern contains a space and the searched string has its spaces
removed. -/
lemma bracketFind_none (s1 : List Char) :
    bracketTable.find? (fun e => containsSeq e.1.toList (tableKey s1)) = none := by
  apply List.find?_eq_none.mpr
  intro e he
  suffices hf : containsSeq e.1.toList (tableKey s1) = false by simpa using hf
  simp only [bracketTable, List.mem_cons, List.not_mem_nil, or_false] at he
  rcases he with rfl | rfl | rfl | rfl | rfl | rfl | rfl | rfl | rfl <;>
    exact containsSeq_false_of_space _ s1 (by decide)

/-- `_parse_amount_range` always takes the digit-run fallback: the bracket
table never matches. -/
lemma parseAmountRange_eq (s : List Char) :
    parseAmountRange s =
      match digitRuns (stripMoneyChars s) with
      | a :: b :: _ => ((natOfDigits a : Int), (natOfDigits b : Int))
      | [a] => ((natOfDigits a : Int), (natOfDigits a : Int))
      | [] => (0, 0) := by
  simp only [parseAmountRange, bracketFind_none]

lemma digitRunsAux_nil (l : List Char) (h : ∀ c ∈ l, c.isDigit = false) :
    digitRunsAux [] l = [] := by
  induction l with
  | nil => rfl
  | cons c cs ih =>
      have hc := h c (List.mem_cons_self _ _)
      simp only [digitRunsAux, hc, Bool.false_eq_true, if_false, List.isEmpty_nil,
        if_true]
      exact ih (fun d hd => h d (List.mem_cons_of_mem _ hd))

lemma digitRuns_nil (l : List Char) (h : ∀ c ∈ l, c.isDigit = false) :
    digitRuns l = [] := digitRunsAux_nil l h

/-! ### Claim theorems: amount-range normalizer and net-worth reconciler -/

/-- C10: `_parse_amount_range` is total (embedded as a total function: every
Python path returns, no exception escapes), both bounds it returns are
non-negative, and a string without any decimal digit yields `(0, 0)`. -/
theorem parseAmountRange_total_nonneg (s : List Char) :
    0 ≤ (parseAmountRange s).1 ∧ 0 ≤ (parseAmountRange s).2 ∧
      ((∀ c ∈ s, c.isDigit = false) → parseAmountRange s = (0, 0)) := by
  have hstrip : ∀ c ∈ stripMoneyChars s, c ∈ s := by
    intro c hc
    exact (List.mem_filter.mp hc).1
  rw [parseAmountRange_eq s]
  rcases hdr : digitRuns (stripMoneyChars s) with _ | ⟨a, _ | ⟨b, rest⟩⟩ <;>
    simp only [hdr]
  · exact ⟨le_refl _, le_refl _, fun _ => by trivial⟩
  · refine ⟨Int.natCast_nonneg _, Int.natCast_nonneg _, ?_⟩
    intro hnd
    have : digitRuns (stripMoneyChars s) = [] :=
      digitRuns_nil _ (fun c hc => hnd c (hstrip c hc))
    rw [this] at hdr
    cases hdr
  · refine ⟨Int.natCast_nonneg _, Int.natCast_nonneg _, ?_⟩
    intro hnd
    have : digitRuns (stripMoneyChars s) = [] :=
      digitRuns_nil _ (fun c hc => hnd c (hstrip c hc))
    rw [this] at hdr
    cases hdr

/-- C10 witness: concrete evaluations through the theorem. -/
theorem parseAmountRange_total_nonneg_witness :
    0 ≤ (parseAmountRange (("N/A").toList)).1 ∧
      parseAmountRange (("N/A").toList) = (0, 0) :=
  ⟨(parseAmountRange_total_nonneg (("N/A").toList)).1,
   (parseAmountRange_total_nonneg (("N/A").toList)).2.2 (by decide)⟩

/-- C2: the top regulatory bracket does NOT round-trip.  The bracket table
lists `("over 50000000", (50000000, 100000000))`, but the table lookup
removes spaces from the input while the patterns keep theirs, so no pattern
ever matches; the canonical bracket string falls through to the digit-run
fallback, which returns `(50000000, 50000000)` — contradicting the table's
own bounds. -/
theorem parseAmountRange_top_bracket_mismatch :
    (("over 50000000", ((50000000 : Int), (100000000 : Int))) ∈ bracketTable) ∧
    parseAmountRange (("Over $50,000,000").toList) = (50000000, 50000000) ∧
    parseAmountRange (("over 50000000").toList) = (50000000, 50000000) ∧
    ((50000000 : Int), (50000000 : Int)) ≠ ((50000000 : Int), (100000000 : Int)) :=
  ⟨by decide, by decide, by decide, by decide⟩

/-- C7: the net-worth reconciler computes componentwise sums over assets and
liabilities and brackets net worth conservatively; on the scenario assets
[(500000,1000000),(100000,250000)] and liabilities [(250000,500000)] it
yields totals (600000,1250000), (250000,500000) and net worth
(100000,1000000). -/
theorem calculateTotals_componentwise_scenario :
    (∀ (assets : List Asset) (liabilities : List Liability),
      (calculateTotals assets liabilities).totalAssetsMin
          = (assets.map (·.valueMin)).sum ∧
      (calculateTotals assets liabilities).totalAssetsMax
          = (assets.map (·.valueMax)).sum ∧
      (calculateTotals assets liabilities).totalLiabilitiesMin
          = (liabilities.map (·.valueMin)).sum ∧
      (calculateTotals assets liabilities).totalLiabilitiesMax
          = (liabilities.map (·.valueMax)).sum ∧
      (calculateTotals assets liabilities).netWorthMin
          = (assets.map (·.valueMin)).sum - (liabilities.map (·.valueMax)).sum ∧
      (calculateTotals assets liabilities).netWorthMax
          = (assets.map (·.valueMax)).sum - (liabilities.map (·.valueMin)).sum) ∧
    calculateTotals
        [⟨("Real Estate"), ("Real Estate"), 500000, 1000000⟩,
         ⟨("Stocks"), ("Stocks"), 100000, 250000⟩]
        [⟨("Mortgage"), none, 250000, 500000⟩]
      = ⟨600000, 1250000, 250000, 500000, 100000, 1000000⟩ :=
  ⟨fun _ _ => ⟨rfl, rfl, rfl, rfl, rfl, rfl⟩, by decide⟩

/-! ### Supporting lemmas: dict building and lookup -/

lemma lookupKey_eq_none {κ β : Type} [DecidableEq κ] (k : κ) (d : List (κ × β))
    (h : ∀ kv ∈ d, kv.1 ≠ k) : lookupKey k d = none := by
  induction d with
  | nil => rfl
  | cons kv rest ih =>
      have hne := h kv (List.mem_cons_self _ _)
      simp only [lookupKey, if_neg hne]
      exact ih (fun kv' h' => h kv' (List.mem_cons_of_mem _ h'))

lemma dictInsert_forall {κ β : Type} [DecidableEq κ] (Q : κ × β → Prop)
    (d : List (κ × β)) (k : κ) (v : β)
    (hd : ∀ kv ∈ d, Q kv) (hkv : Q (k, v)) :
    ∀ kv ∈ dictInsert d k v, Q kv := by
  intro kv hmem
  unfold dictInsert at hmem
  by_cases hc : d.any (fun kv => decide (kv.1 = k)) = true
  · rw [if_pos hc] at hmem
    rcases List.mem_map.mp hmem with ⟨kv0, hkv0, heq⟩
    by_cases he : kv0.1 = k
    · rw [if_pos he] at heq
      exact heq ▸ hkv
    · rw [if_neg he] at heq
      exact heq ▸ hd kv0 hkv0
  · rw [if_neg hc] at hmem
    rcases List.mem_append.mp hmem with hmem | hmem
    · exact hd kv hmem
    · have : kv = (k, v) := by simpa using hmem
      exact this ▸ hkv

lemma buildPrevMap_spec (prev : List PrevHolding) :
    ∀ kv ∈ buildPrevMap prev, kv.1 = keyOfPrev kv.2 ∧ kv.2 ∈ prev := by
  suffices aux : ∀ (l : List PrevHolding)
      (acc : List (Option String × PrevHolding)),
      (∀ kv ∈ acc, kv.1 = keyOfPrev kv.2 ∧ kv.2 ∈ prev) →
      (∀ p ∈ l, p ∈ prev) →
      ∀ kv ∈ l.foldl (fun d p => dictInsert d (keyOfPrev p) p) acc,
        kv.1 = keyOfPrev kv.2 ∧ kv.2 ∈ prev by
    exact aux prev [] (by simp) (fun p hp => hp)
  intro l
  induction l with
  | nil =>
      intro acc hacc _ kv hkv
      exact hacc kv hkv
  | cons p ps ih =>
      intro acc hacc hl kv hkv
      simp only [List.foldl_cons] at hkv
      exact ih (dictInsert acc (keyOfPrev p) p)
        (dictInsert_forall _ acc _ _ hacc ⟨rfl, hl p (List.mem_cons_self _ _)⟩)
        (fun q hq => hl q (List.mem_cons_of_mem _ hq)) kv hkv

lemma buildPrevMap_lookup_none (prev : List PrevHolding) (k : Option String)
    (h : ∀ p ∈ prev, keyOfPrev p ≠ k) :
    lookupKey k (buildPrevMap prev) = none := by
  apply lookupKey_eq_none
  intro kv hkv
  obtain ⟨hk, hmem⟩ := buildPrevMap_spec prev kv hkv
  rw [hk]
  exact h kv.2 hmem

lemma dictInsert_of_not_present {κ β : Type} [DecidableEq κ]
    (d : List (κ × β)) (k : κ) (v : β)
    (h : ∀ kv ∈ d, kv.1 ≠ k) : dictInsert d k v = d ++ [(k, v)] := by
  unfold dictInsert
  rw [if_neg]
  simp only [List.any_eq_true, decide_eq_true_eq, not_exists]
  rintro kv ⟨hkv, he⟩
  exact h kv hkv he

lemma buildPrevMap_of_nodup (prev : List PrevHolding)
    (hnd : (prev.map keyOfPrev).Nodup) :
    buildPrevMap prev = prev.map (fun p => (keyOfPrev p, p)) := by
  suffices aux : ∀ (l : List PrevHolding)
      (acc : List (Option String × PrevHolding)),
      (∀ kv ∈ acc, ∀ p ∈ l, kv.1 ≠ keyOfPrev p) →
      (l.map keyOfPrev).Nodup →
      l.foldl (fun d p => dictInsert d (keyOfPrev p) p) acc
        = acc ++ l.map (fun p => (keyOfPrev p, p)) by
    simpa using aux prev [] (by simp) hnd
  intro l
  induction l with
  | nil =>
      intro acc _ _
      simp
  | cons p ps ih =>
      intro acc hacc hnd
      simp only [List.map_cons, List.nodup_cons] at hnd
      simp only [List.foldl_cons]
      rw [dictInsert_of_not_present acc _ p
        (fun kv hkv => hacc kv hkv p (List.mem_cons_self _ _))]
      have h1 : ∀ kv ∈ acc ++ [(keyOfPrev p, p)], ∀ q ∈ ps, kv.1 ≠ keyOfPrev q := by
        intro kv hkv q hq
        rcases List.mem_append.mp hkv with h' | h'
        · exact hacc kv h' q (List.mem_cons_of_mem _ hq)
        · have hkp : kv = (keyOfPrev p, p) := by simpa using h'
          subst hkp
          intro he
          have he' : keyOfPrev p = keyOfPrev q := he
          exact hnd.1 (by rw [he']; exact List.mem_map_of_mem _ hq)
      rw [ih (acc ++ [(keyOfPrev p, p)]) h1 hnd.2]
      simp

lemma lookupKey_map_self (prev : List PrevHolding) (p : PrevHolding)
    (hnd : (prev.map keyOfPrev).Nodup) (hp : p ∈ prev) :
    lookupKey (keyOfPrev p) (prev.map (fun q => (keyOfPrev q, q))) = some p := by
  induction prev with
  | nil => cases hp
  | cons q qs ih =>
      simp only [List.map_cons, List.nodup_cons] at hnd
      rcases List.mem_cons.mp hp with rfl | hmem
      · simp [lookupKey]
      · have hne : keyOfPrev q ≠ keyOfPrev p := by
          intro he
          exact hnd.1 (he ▸ List.mem_map_of_mem _ hmem)
        simp only [List.map_cons, lookupKey]
        rw [if_neg hne]
        exact ih hnd.2 hmem

/-! ### Supporting lemmas: shape of the emitted records -/

lemma mkCurrentRec_fields (pm : List (Option String × PrevHolding))
    (sid fid : Int) (h : HoldingIn) :
    (mkCurrentRec pm sid fid h).ticker = h.ticker ∧
    (mkCurrentRec pm sid fid h).cusip = h.cusip ∧
    (mkCurrentRec pm sid fid h).issuerName = h.issuerName ∧
    (mkCurrentRec pm sid fid h).shares = h.shares ∧
    (mkCurrentRec pm sid fid h).value = h.value ∧
    (mkCurrentRec pm sid fid h).isSold = false :=
  ⟨rfl, rfl, rfl, rfl, rfl, rfl⟩

lemma keyOfRec_mkCurrentRec (pm : List (Option String × PrevHolding))
    (sid fid : Int) (h : HoldingIn) :
    keyOfRec (mkCurrentRec pm sid fid h) = keyOfIn h := rfl

lemma keyOfRec_mkSoldRec (sid fid : Int) (p : PrevHolding) :
    keyOfRec (mkSoldRec sid fid p) = keyOfPrev p := rfl

lemma mkCurrentRec_of_lookup_none (pm : List (Option String × PrevHolding))
    (sid fid : Int) (h : HoldingIn)
    (hl : lookupKey (keyOfIn h) pm = none) :
    (mkCurrentRec pm sid fid h).isNew = true ∧
    (mkCurrentRec pm sid fid h).sharesChange = none ∧
    (mkCurrentRec pm sid fid h).sharesChangePct = none := by
  unfold mkCurrentRec
  rw [hl]
  simp

lemma mkCurrentRec_of_lookup_some (pm : List (Option String × PrevHolding))
    (sid fid : Int) (h : HoldingIn) (p : PrevHolding)
    (hl : lookupKey (keyOfIn h) pm = some p) :
    (mkCurrentRec pm sid fid h).isNew = false ∧
    (mkCurrentRec pm sid fid h).sharesChange
      = some (h.shares - p.shares.getD 0) := by
  unfold mkCurrentRec
  rw [hl]
  simp

/-! ### Claim theorems: diff-engine record invariants and New records -/

/-- C9: every record emitted by `add_holdings_with_changes` is never both
new and sold; a sold record always carries zero shares, zero value, zero
portfolio percentage and a −100 percentage delta. -/
theorem addHoldings_record_invariant (sid fid : Int)
    (hs : List HoldingIn) (prev : List PrevHolding) (r : HoldingRec)
    (hr : r ∈ addHoldingsWithChanges sid fid hs prev) :
    (¬(r.isNew = true ∧ r.isSold = true)) ∧
    (r.isSold = true →
      r.shares = 0 ∧ r.value = 0 ∧ r.pctPortfolio = some 0 ∧
        r.sharesChangePct = some (-100)) := by
  unfold addHoldingsWithChanges at hr
  rcases List.mem_append.mp hr with hmem | hmem
  · rcases List.mem_map.mp hmem with ⟨h, _, rfl⟩
    have hsold : (mkCurrentRec (buildPrevMap prev) sid fid h).isSold = false := rfl
    refine ⟨fun hc => ?_, fun hc => ?_⟩
    · rw [hsold] at hc
      cases hc.2
    · rw [hsold] at hc
      cases hc
  · rcases List.mem_map.mp hmem with ⟨kp, _, rfl⟩
    constructor
    · intro hc
      cases hc.1
    · intro hsold
      exact ⟨rfl, rfl, rfl, rfl⟩

/-- C9 witness: the invariant evaluated on a concrete diff that produces
both a carried-over record and a synthetic sold record. -/
theorem addHoldings_record_invariant_witness :
    ∃ r ∈ addHoldingsWithChanges 1 2
      [⟨some ("AAPL"), none, none, 100, 1000, none⟩]
      [⟨some ("MSFT"), none, none, some 10⟩],
      (¬(r.isNew = true ∧ r.isSold = true)) ∧
      (r.isSold = true →
        r.shares = 0 ∧ r.value = 0 ∧ r.pctPortfolio = some 0 ∧
          r.sharesChangePct = some (-100)) := by
  refine ⟨mkSoldRec 1 2 ⟨some ("MSFT"), none, none, some 10⟩, by decide, ?_⟩
  exact addHoldings_record_invariant 1 2
    [⟨some ("AAPL"), none, none, 100, 1000, none⟩]
    [⟨some ("MSFT"), none, none, some 10⟩]
    (mkSoldRec 1 2 ⟨some ("MSFT"), none, none, some 10⟩) (by decide)

/-- C1 counterexample: a holding present only in the current filing is
classified New, but its `shares_change` and `shares_change_pct` are left
`None` — not `+quantity` and `+100` as the claim states. -/
theorem addHoldings_new_record_deltas_counterexample :
    ((addHoldingsWithChanges 1 2
        [⟨some ("AAPL"), none, none, 100, 1000, none⟩] []).map
      (fun r => (r.isNew, r.sharesChange, r.sharesChangePct))
        = [(true, none, none)]) ∧
    ((none : Option Int) ≠ some 100) ∧ ((none : Option ℚ) ≠ some 100) := by
  refine ⟨by decide, by decide, by decide⟩

/-- C1 (amended): a holding whose identity key is present in the current
filing but absent from the previous one is classified New (`is_new` set,
`is_sold` clear) and its quantity and value are carried over, but both
change fields are left unset (`None`). -/
theorem addHoldings_new_record (sid fid : Int)
    (hs : List HoldingIn) (prev : List PrevHolding) (h : HoldingIn)
    (hmem : h ∈ hs) (habs : ∀ p ∈ prev, keyOfPrev p ≠ keyOfIn h) :
    ∃ r ∈ addHoldingsWithChanges sid fid hs prev,
      r.ticker = h.ticker ∧ r.cusip = h.cusip ∧ r.shares = h.shares ∧
      r.value = h.value ∧ r.isNew = true ∧ r.isSold = false ∧
      r.sharesChange = none ∧ r.sharesChangePct = none := by
  have hl : lookupKey (keyOfIn h) (buildPrevMap prev) = none :=
    buildPrevMap_lookup_none prev _ habs
  obtain ⟨hnew, hsc, hscp⟩ :=
    mkCurrentRec_of_lookup_none (buildPrevMap prev) sid fid h hl
  obtain ⟨ht, hcu, _, hsh, hv, hso⟩ :=
    mkCurrentRec_fields (buildPrevMap prev) sid fid h
  refine ⟨mkCurrentRec (buildPrevMap prev) sid fid h, ?_, ht, hcu, hsh, hv,
    hnew, hso, hsc, hscp⟩
  unfold addHoldingsWithChanges
  exact List.mem_append_left _ (List.mem_map_of_mem _ hmem)

/-- C1 (amended) witness: the New record produced for a concrete filing
pair. -/
theorem addHoldings_new_record_witness :
    ∃ r ∈ addHoldingsWithChanges 1 2
        [⟨some ("AAPL"), none, none, 100, 1000, none⟩]
        [⟨some ("MSFT"), none, none, some 10⟩],
      r.ticker = some ("AAPL") ∧ r.cusip = none ∧ r.shares = 100 ∧
      r.value = 1000 ∧ r.isNew = true ∧ r.isSold = false ∧
      r.sharesChange = none ∧ r.sharesChangePct = none :=
  addHoldings_new_record 1 2
    [⟨some ("AAPL"), none, none, 100, 1000, none⟩]
    [⟨some ("MSFT"), none, none, some 10⟩]
    ⟨some ("AAPL"), none, none, 100, 1000, none⟩
    (by decide) (by decide)

/-! ### Supporting lemmas: filtering records by identity key -/

lemma filter_key_nil {α κ : Type} [DecidableEq κ] (key : α → κ) (l : List α)
    (k : κ) (h : ∀ x ∈ l, key x ≠ k) :
    l.filter (fun x => decide (key x = k)) = [] := by
  apply List.filter_eq_nil_iff.mpr
  intro a ha
  simpa using h a ha

lemma filter_key_singleton {α κ : Type} [DecidableEq κ] (key : α → κ) :
    ∀ (l : List α) (x : α), (l.map key).Nodup → x ∈ l →
      l.filter (fun y => decide (key y = key x)) = [x] := by
  intro l
  induction l with
  | nil =>
      intro x _ hx
      cases hx
  | cons y ys ih =>
      intro x hnd hx
      simp only [List.map_cons, List.nodup_cons] at hnd
      rcases List.mem_cons.mp hx with rfl | hmem
      · rw [List.filter_cons_of_pos (by simp)]
        rw [filter_key_nil key ys (key x)
          (fun z hz he => hnd.1 (he ▸ List.mem_map_of_mem _ hz))]
      · have hne : key y ≠ key x := by
          intro he
          exact hnd.1 (by rw [he]; exact List.mem_map_of_mem _ hmem)
        rw [List.filter_cons_of_neg (by simpa using hne)]
        exact ih x hnd.2 hmem

/-- `add_holdings_with_changes` unfolded into its two halves. -/
lemma addHoldings_eq (sid fid : Int) (hs : List HoldingIn)
    (prev : List PrevHolding) :
    addHoldingsWithChanges sid fid hs prev
      = hs.map (mkCurrentRec (buildPrevMap prev) sid fid)
        ++ ((buildPrevMap prev).filter
              (fun kp => decide (kp.1 ∉ hs.map keyOfIn))).map
            (fun kp => mkSoldRec sid fid kp.2) := rfl

/-- Filtering the sold half by the key of a previous-only holding leaves
exactly its synthetic record (previous keys assumed distinct). -/
lemma sold_filter_singleton (sid fid : Int) (hs : List HoldingIn)
    (prev : List PrevHolding) (p : PrevHolding)
    (hnd : (prev.map keyOfPrev).Nodup) (hp : p ∈ prev)
    (habs : keyOfPrev p ∉ hs.map keyOfIn) :
    (((buildPrevMap prev).filter
        (fun kp => decide (kp.1 ∉ hs.map keyOfIn))).map
      (fun kp => mkSoldRec sid fid kp.2)).filter
        (fun r => decide (keyOfRec r = keyOfPrev p))
      = [mkSoldRec sid fid p] := by
  rw [buildPrevMap_of_nodup prev hnd]
  simp only [List.filter_map, List.filter_filter, List.map_map,
    Function.comp, keyOfRec_mkSoldRec]
  have hone : prev.filter
      (fun q => decide (keyOfPrev q = keyOfPrev p)
        && decide (keyOfPrev q ∉ hs.map keyOfIn)) = [p] := by
    rw [← List.filter_filter]
    have hsub : (prev.filter
        (fun q => decide (keyOfPrev q ∉ hs.map keyOfIn))).Sublist prev :=
      List.filter_sublist _
    have hnd' : ((prev.filter
        (fun q => decide (keyOfPrev q ∉ hs.map keyOfIn))).map keyOfPrev).Nodup :=
      List.Nodup.sublist (List.Sublist.map keyOfPrev hsub) hnd
    have hpmem : p ∈ prev.filter
        (fun q => decide (keyOfPrev q ∉ hs.map keyOfIn)) :=
      List.mem_filter.mpr ⟨hp, by simpa using habs⟩
    exact filter_key_singleton keyOfPrev _ p hnd' hpmem
  rw [hone]
  rfl

/-- Filtering the sold half by a key that the current filing contains (or
that no previous holding carries) leaves nothing. -/
lemma sold_filter_nil (sid fid : Int) (hs : List HoldingIn)
    (prev : List PrevHolding) (k : Option String)
    (hk : k ∈ hs.map keyOfIn ∨ ∀ p ∈ prev, keyOfPrev p ≠ k) :
    (((buildPrevMap prev).filter
        (fun kp => decide (kp.1 ∉ hs.map keyOfIn))).map
      (fun kp => mkSoldRec sid fid kp.2)).filter
        (fun r => decide (keyOfRec r = k)) = [] := by
  apply filter_key_nil
  intro r hr
  rcases List.mem_map.mp hr with ⟨kp, hkp, rfl⟩
  have hkp2 := List.mem_filter.mp hkp
  obtain ⟨hk1, hk2⟩ := buildPrevMap_spec prev kp hkp2.1
  rw [keyOfRec_mkSoldRec]
  rcases hk with hk | hk
  · intro he
    have : kp.1 ∉ hs.map keyOfIn := by simpa using hkp2.2
    rw [hk1, he] at this
    exact this hk
  · exact hk kp.2 hk2

/-- Filtering the current half by a key no current holding carries leaves
nothing. -/
lemma current_filter_nil (pm : List (Option String × PrevHolding))
    (sid fid : Int) (hs : List HoldingIn) (k : Option String)
    (h : ∀ x ∈ hs, keyOfIn x ≠ k) :
    (hs.map (mkCurrentRec pm sid fid)).filter
      (fun r => decide (keyOfRec r = k)) = [] := by
  apply filter_key_nil
  intro r hr
  rcases List.mem_map.mp hr with ⟨x, hx, rfl⟩
  rw [keyOfRec_mkCurrentRec]
  exact h x hx

/-- Filtering the current half by the key of one of its holdings leaves
exactly that holding's record (current keys assumed distinct). -/
lemma current_filter_singleton (pm : List (Option String × PrevHolding))
    (sid fid : Int) (hs : List HoldingIn) (h : HoldingIn)
    (hnd : (hs.map keyOfIn).Nodup) (hmem : h ∈ hs) :
    (hs.map (mkCurrentRec pm sid fid)).filter
      (fun r => decide (keyOfRec r = keyOfIn h))
      = [mkCurrentRec pm sid fid h] := by
  rw [List.filter_map]
  have hc : (fun r => decide (keyOfRec r = keyOfIn h)) ∘ (mkCurrentRec pm sid fid)
      = fun x => decide (keyOfIn x = keyOfIn h) := by
    funext x
    simp [Function.comp, keyOfRec_mkCurrentRec]
  rw [hc, filter_key_singleton keyOfIn hs h hnd hmem]
  rfl

/-! ### Claim theorems: Closed records -/

/-- C3 counterexample: a previous holding with zero quantity whose key left
the filing produces a synthetic sold record whose `shares_change` is `None`,
not the negated previous quantity `-0`. -/
theorem addHoldings_closed_zero_qty_counterexample :
    ((addHoldingsWithChanges 1 2 []
        [⟨some ("MSFT"), none, some ("Microsoft"), some 0⟩]).map
      (fun r => (r.isSold, r.sharesChange)) = [(true, none)]) ∧
    ((none : Option Int) ≠ some (-(0 : Int))) :=
  ⟨by decide, by decide⟩

/-- C3 (amended): an identity key present in the previous filing (previous
keys distinct) but absent from the current one materializes exactly one
synthetic record carrying the prior identity with zero quantity, value and
portfolio percentage, flagged sold, with percentage delta −100 and delta
equal to the negated previous quantity when that quantity is a nonzero
number (`None` when the previous quantity is 0 or missing). -/
theorem addHoldings_closed_synthetic (sid fid : Int) (hs : List HoldingIn)
    (prev : List PrevHolding) (p : PrevHolding)
    (hnd : (prev.map keyOfPrev).Nodup) (hp : p ∈ prev)
    (habs : ∀ h ∈ hs, keyOfIn h ≠ keyOfPrev p) :
    ∃ r, (addHoldingsWithChanges sid fid hs prev).filter
        (fun x => decide (keyOfRec x = keyOfPrev p)) = [r] ∧
      r.ticker = p.ticker ∧ r.cusip = p.cusip ∧ r.issuerName = p.issuerName ∧
      r.shares = 0 ∧ r.value = 0 ∧ r.pctPortfolio = some 0 ∧
      r.isSold = true ∧ r.isNew = false ∧ r.sharesChangePct = some (-100) ∧
      r.sharesChange = soldSharesChange p.shares := by
  refine ⟨mkSoldRec sid fid p, ?_, rfl, rfl, rfl, rfl, rfl, rfl, rfl, rfl,
    rfl, rfl⟩
  rw [addHoldings_eq, List.filter_append]
  rw [current_filter_nil _ sid fid hs _ habs]
  have hnotin : keyOfPrev p ∉ hs.map keyOfIn := by
    intro hc
    rcases List.mem_map.mp hc with ⟨x, hx, he⟩
    exact habs x hx he
  rw [sold_filter_singleton sid fid hs prev p hnd hp hnotin]
  rfl

/-- C3 (amended) witness: the synthetic sold record for a concrete filing
pair. -/
theorem addHoldings_closed_synthetic_witness :
    ∃ r, (addHoldingsWithChanges 1 2
        [⟨some ("AAPL"), none, none, 100, 1000, none⟩]
        [⟨some ("MSFT"), none, some ("Microsoft"), some 10⟩]).filter
        (fun x => decide (keyOfRec x
          = keyOfPrev ⟨some ("MSFT"), none, some ("Microsoft"), some 10⟩)) = [r] ∧
      r.ticker = some ("MSFT") ∧ r.cusip = none ∧
      r.issuerName = some ("Microsoft") ∧
      r.shares = 0 ∧ r.value = 0 ∧ r.pctPortfolio = some 0 ∧
      r.isSold = true ∧ r.isNew = false ∧ r.sharesChangePct = some (-100) ∧
      r.sharesChange = soldSharesChange (some 10) :=
  addHoldings_closed_synthetic 1 2
    [⟨some ("AAPL"), none, none, 100, 1000, none⟩]
    [⟨some ("MSFT"), none, some ("Microsoft"), some 10⟩]
    ⟨some ("MSFT"), none, some ("Microsoft"), some 10⟩
    (by decide) (by decide) (by decide)

/-! ### Supporting lemmas: counting identity keys -/

lemma length_filter_not_mem (l1 l2 : List (Option String)) (h2 : l2.Nodup) :
    (l2.filter (fun k => decide (k ∉ l1))).length
      = (l2.toFinset \ l1.toFinset).card := by
  induction l2 with
  | nil => simp
  | cons k ks ih =>
      simp only [List.nodup_cons] at h2
      by_cases hk : k ∈ l1
      · rw [List.filter_cons_of_neg (by simpa using hk)]
        rw [ih h2.2, List.toFinset_cons,
          Finset.insert_sdiff_of_mem _ (List.mem_toFinset.mpr hk)]
      · rw [List.filter_cons_of_pos (by simpa using hk), List.length_cons,
          ih h2.2, List.toFinset_cons,
          Finset.insert_sdiff_of_not_mem _ (fun hc => hk (List.mem_toFinset.mp hc)),
          Finset.card_insert_of_not_mem
            (fun hc => h2.1 (List.mem_toFinset.mp (Finset.mem_sdiff.mp hc).1))]

lemma card_union_toFinset (l1 l2 : List (Option String))
    (h1 : l1.Nodup) (h2 : l2.Nodup) :
    (l1 ++ l2).toFinset.card
      = l1.length + (l2.filter (fun k => decide (k ∉ l1))).length := by
  rw [List.toFinset_append, Finset.union_comm,
    ← Finset.card_sdiff_add_card l2.toFinset l1.toFinset,
    add_comm ((l2.toFinset \ l1.toFinset).card) l1.toFinset.card,
    List.toFinset_card_of_nodup h1, ← length_filter_not_mem l1 l2 h2]

/-! ### Claim theorems: exactly one record per identity key -/

/-- C4 counterexample: two current holdings sharing one identity key produce
two records, while the union of identity keys has size one — the output
length does not equal the size of the key union. -/
theorem addHoldings_union_count_counterexample :
    ((addHoldingsWithChanges 1 2
        [⟨some ("A"), none, none, 1, 1, none⟩,
         ⟨some ("A"), none, none, 1, 1, none⟩] []).length = 2) ∧
    ((([⟨some ("A"), none, none, 1, 1, none⟩,
        ⟨some ("A"), none, none, 1, 1, none⟩] : List HoldingIn).map keyOfIn
      ++ ([] : List PrevHolding).map keyOfPrev).toFinset.card = 1) ∧
    (2 ≠ 1) :=
  ⟨by decide, by decide, by decide⟩

/-- C4 (amended): when the current holdings carry pairwise-distinct identity
keys and so does the previous filing, the diff emits exactly one record per
identity key: one New record per current-only key, one sold record per
previous-only key, one record with zero delta and neither flag per key in
both with equal quantities, and the output length equals the number of
distinct identity keys in the union of the two filings. -/
theorem addHoldings_exactly_one_per_key (sid fid : Int) (hs : List HoldingIn)
    (prev : List PrevHolding)
    (hndc : (hs.map keyOfIn).Nodup) (hndp : (prev.map keyOfPrev).Nodup) :
    ((addHoldingsWithChanges sid fid hs prev).length
        = (hs.map keyOfIn ++ prev.map keyOfPrev).toFinset.card) ∧
    (∀ h ∈ hs, keyOfIn h ∉ prev.map keyOfPrev →
      ∃ r, (addHoldingsWithChanges sid fid hs prev).filter
          (fun x => decide (keyOfRec x = keyOfIn h)) = [r] ∧
        r.isNew = true ∧ r.isSold = false) ∧
    (∀ p ∈ prev, keyOfPrev p ∉ hs.map keyOfIn →
      ∃ r, (addHoldingsWithChanges sid fid hs prev).filter
          (fun x => decide (keyOfRec x = keyOfPrev p)) = [r] ∧
        r.isSold = true ∧ r.isNew = false) ∧
    (∀ h ∈ hs, ∀ p ∈ prev, keyOfIn h = keyOfPrev p →
      h.shares = p.shares.getD 0 →
      ∃ r, (addHoldingsWithChanges sid fid hs prev).filter
          (fun x => decide (keyOfRec x = keyOfIn h)) = [r] ∧
        r.isNew = false ∧ r.isSold = false ∧ r.sharesChange = some 0) := by
  refine ⟨?_, ?_, ?_, ?_⟩
  · rw [addHoldings_eq, List.length_append, List.length_map,
      buildPrevMap_of_nodup prev hndp, List.filter_map, List.length_map,
      List.length_map,
      card_union_toFinset (hs.map keyOfIn) (prev.map keyOfPrev) hndc hndp,
      List.filter_map, List.length_map, List.length_map]
    rfl
  · intro h hmem habs
    have hlook : lookupKey (keyOfIn h) (buildPrevMap prev) = none :=
      buildPrevMap_lookup_none prev _
        (fun p hp he => habs (he ▸ List.mem_map_of_mem _ hp))
    refine ⟨mkCurrentRec (buildPrevMap prev) sid fid h, ?_,
      (mkCurrentRec_of_lookup_none _ sid fid h hlook).1, rfl⟩
    rw [addHoldings_eq, List.filter_append,
      current_filter_singleton _ sid fid hs h hndc hmem,
      sold_filter_nil sid fid hs prev _
        (Or.inl (List.mem_map_of_mem _ hmem))]
    rfl
  · intro p hp habs
    refine ⟨mkSoldRec sid fid p, ?_, rfl, rfl⟩
    have habs' : ∀ x ∈ hs, keyOfIn x ≠ keyOfPrev p := by
      intro x hx he
      exact habs (he ▸ List.mem_map_of_mem _ hx)
    rw [addHoldings_eq, List.filter_append,
      current_filter_nil _ sid fid hs _ habs',
      sold_filter_singleton sid fid hs prev p hndp hp habs]
    rfl
  · intro h hmem p hp hkey hq
    have hlook : lookupKey (keyOfIn h) (buildPrevMap prev) = some p := by
      rw [hkey, buildPrevMap_of_nodup prev hndp]
      exact lookupKey_map_self prev p hndp hp
    obtain ⟨hnew, hsc⟩ := mkCurrentRec_of_lookup_some _ sid fid h p hlook
    refine ⟨mkCurrentRec (buildPrevMap prev) sid fid h, ?_, hnew, rfl, ?_⟩
    · rw [addHoldings_eq, List.filter_append,
        current_filter_singleton _ sid fid hs h hndc hmem,
        sold_filter_nil sid fid hs prev _
          (Or.inl (List.mem_map_of_mem _ hmem))]
      rfl
    · rw [hsc, hq]
      simp

/-- C4 (amended) witness: the spec scenario — AAPL in both filings with
changed quantity plus MSFT only in the previous filing — through the
amended theorem (its Unchanged leg exercised by a third key). -/
theorem addHoldings_exactly_one_per_key_witness :
    ((addHoldingsWithChanges 1 2
        [⟨some ("AAPL"), none, none, 100, 1000, none⟩,
         ⟨some ("IBM"), none, none, 50, 500, none⟩]
        [⟨some ("IBM"), none, none, some 50⟩,
         ⟨some ("MSFT"), none, none, some 10⟩]).length
      = (([⟨some ("AAPL"), none, none, 100, 1000, none⟩,
           ⟨some ("IBM"), none, none, 50, 500, none⟩] : List HoldingIn).map keyOfIn
        ++ ([⟨some ("IBM"), none, none, some 50⟩,
             ⟨some ("MSFT"), none, none, some 10⟩] : List PrevHolding).map
            keyOfPrev).toFinset.card) ∧
    (∃ r, (addHoldingsWithChanges 1 2
        [⟨some ("AAPL"), none, none, 100, 1000, none⟩,
         ⟨some ("IBM"), none, none, 50, 500, none⟩]
        [⟨some ("IBM"), none, none, some 50⟩,
         ⟨some ("MSFT"), none, none, some 10⟩]).filter
          (fun x => decide (keyOfRec x
            = keyOfIn ⟨some ("IBM"), none, none, 50, 500, none⟩)) = [r] ∧
      r.isNew = false ∧ r.isSold = false ∧ r.sharesChange = some 0) := by
  refine ⟨(addHoldings_exactly_one_per_key 1 2 _ _ (by decide) (by decide)).1, ?_⟩
  exact (addHoldings_exactly_one_per_key 1 2
      [⟨some ("AAPL"), none, none, 100, 1000, none⟩,
       ⟨some ("IBM"), none, none, 50, 500, none⟩]
      [⟨some ("IBM"), none, none, some 50⟩,
       ⟨some ("MSFT"), none, none, some 10⟩]
      (by decide) (by decide)).2.2.2
    ⟨some ("IBM"), none, none, 50, 500, none⟩ (by decide)
    ⟨some ("IBM"), none, none, some 50⟩ (by decide) (by decide) (by decide)

/-! ### Supporting lemmas: the stable descending sort -/

lemma insertValDesc_perm {α : Type} (val : α → Nat) (x : α) (l : List α) :
    (insertValDesc val x l).Perm (x :: l) := by
  induction l with
  | nil => exact List.Perm.refl _
  | cons y ys ih =>
      unfold insertValDesc
      by_cases hc : val x < val y
      · rw [if_pos hc]
        exact (List.Perm.cons y ih).trans (List.Perm.swap x y ys)
      · rw [if_neg hc]

lemma sortValDesc_perm {α : Type} (val : α → Nat) (l : List α) :
    (sortValDesc val l).Perm l := by
  induction l with
  | nil => exact List.Perm.refl _
  | cons x xs ih =>
      exact (insertValDesc_perm val x (sortValDesc val xs)).trans
        (List.Perm.cons x ih)

lemma pairwise_insertValDesc {α : Type} (val : α → Nat) (x : α) (l : List α)
    (h : l.Pairwise (fun a b => val b ≤ val a)) :
    (insertValDesc val x l).Pairwise (fun a b => val b ≤ val a) := by
  induction l with
  | nil => simp [insertValDesc]
  | cons y ys ih =>
      rcases List.pairwise_cons.mp h with ⟨hy, hys⟩
      unfold insertValDesc
      by_cases hc : val x < val y
      · rw [if_pos hc]
        refine List.pairwise_cons.mpr ⟨?_, ih hys⟩
        intro z hz
        have hz' := (insertValDesc_perm val x ys).mem_iff.mp hz
        rcases List.mem_cons.mp hz' with rfl | hm
        · exact le_of_lt hc
        · exact hy z hm
      · rw [if_neg hc]
        refine List.pairwise_cons.mpr ⟨?_, h⟩
        intro z hz
        rcases List.mem_cons.mp hz with rfl | hm
        · exact Nat.le_of_not_lt hc
        · exact le_trans (hy z hm) (Nat.le_of_not_lt hc)

lemma pairwise_sortValDesc {α : Type} (val : α → Nat) (l : List α) :
    (sortValDesc val l).Pairwise (fun a b => val b ≤ val a) := by
  induction l with
  | nil => simp [sortValDesc]
  | cons x xs ih => exact pairwise_insertValDesc val x _ ih

lemma filter_insertValDesc {α : Type} (val : α → Nat) (x : α) (l : List α)
    (v : Nat) :
    (insertValDesc val x l).filter (fun a => decide (val a = v))
      = if val x = v then x :: l.filter (fun a => decide (val a = v))
        else l.filter (fun a => decide (val a = v)) := by
  induction l with
  | nil =>
      unfold insertValDesc
      by_cases hv : val x = v
      · rw [if_pos hv, List.filter_cons_of_pos (by simpa using hv)]
      · rw [if_neg hv, List.filter_cons_of_neg (by simpa using hv)]
  | cons y ys ih =>
      unfold insertValDesc
      by_cases hc : val x < val y
      · rw [if_pos hc]
        by_cases hy : val y = v
        · have hxv : ¬ (val x = v) := by omega
          rw [List.filter_cons_of_pos (by simpa using hy), ih, if_neg hxv,
            if_neg hxv, List.filter_cons_of_pos (by simpa using hy)]
        · rw [List.filter_cons_of_neg (by simpa using hy), ih,
            List.filter_cons_of_neg (by simpa using hy)]
      · rw [if_neg hc]
        by_cases hv : val x = v
        · rw [if_pos hv, List.filter_cons_of_pos (by simpa using hv)]
        · rw [if_neg hv, List.filter_cons_of_neg (by simpa using hv)]

lemma filter_sortValDesc {α : Type} (val : α → Nat) (l : List α) (v : Nat) :
    (sortValDesc val l).filter (fun a => decide (val a = v))
      = l.filter (fun a => decide (val a = v)) := by
  induction l with
  | nil => rfl
  | cons x xs ih =>
      show (insertValDesc val x (sortValDesc val xs)).filter _ = _
      rw [filter_insertValDesc]
      by_cases hv : val x = v
      · rw [if_pos hv, ih, List.filter_cons_of_pos (by simpa using hv)]
      · rw [if_neg hv, ih, List.filter_cons_of_neg (by simpa using hv)]

/-! ### Supporting lemmas: sums and rounding -/

lemma natCast_sum_map {α : Type} (l : List α) (f : α → Nat) :
    (((l.map f).sum : Nat) : ℚ) = (l.map (fun a => ((f a : Nat) : ℚ))).sum := by
  induction l with
  | nil => simp
  | cons x xs ih => simp [ih]

lemma sum_map_add {α : Type} (l : List α) (f g : α → ℚ) :
    (l.map (fun a => f a + g a)).sum = (l.map f).sum + (l.map g).sum := by
  induction l with
  | nil => simp
  | cons x xs ih =>
      simp only [List.map_cons, List.sum_cons, ih]
      ring

lemma sum_map_const {α : Type} (l : List α) (c : ℚ) :
    (l.map (fun _ => c)).sum = l.length * c := by
  simp [List.map_const]

/-- One rounding step loses at most half a cent upward. -/
lemma round2_le (x : ℚ) : round2 x ≤ x + 1/200 := by
  unfold round2
  have h := abs_sub_round (x * 100)
  rw [abs_le] at h
  have h2 : ((round (x * 100) : ℤ) : ℚ) ≤ x * 100 + 1/2 := by
    have := h.1
    linarith
  calc ((round (x * 100) : ℤ) : ℚ) / 100 ≤ (x * 100 + 1/2) / 100 :=
        div_le_div_of_nonneg_right h2 (by norm_num : (0:ℚ) < 100).le
    _ = x + 1/200 := by ring

/-! ### Supporting lemmas: shape of the finalized filings -/

lemma getLatestFilingFinalize_total (hs : List H13F) :
    (getLatestFilingFinalize hs).totalValue
      = (hs.map (fun x => x.value)).sum := rfl

lemma getLatestFilingFinalize_holdings (hs : List H13F) :
    (getLatestFilingFinalize hs).holdings
      = sortValDesc (fun x => x.value) (hs.map (fun h =>
          { h with
            pctPortfolio :=
              pct13F ((hs.map (fun x => x.value)).sum) h.value })) := rfl

lemma getLatestFilingFinalize_mem (hs : List H13F) (r : H13F)
    (hr : r ∈ (getLatestFilingFinalize hs).holdings) :
    ∃ h ∈ hs, r = { h with
      pctPortfolio := pct13F ((hs.map (fun x => x.value)).sum) h.value } := by
  rw [getLatestFilingFinalize_holdings] at hr
  have hr' := (sortValDesc_perm (fun x : H13F => x.value) _).mem_iff.mp hr
  rcases List.mem_map.mp hr' with ⟨h, hh, rfl⟩
  exact ⟨h, hh, rfl⟩

lemma scrapeFinalize_total (app : List AppHolding) :
    (scrapeFinalize app).totalValue = (app.map (fun x => x.value)).sum := rfl

lemma scrapeFinalize_holdings (app : List AppHolding) :
    (scrapeFinalize app).holdings
      = sortValDesc (fun x => x.value) (app.map (fun h =>
          { h with
            pct := pctApp ((app.map (fun x => x.value)).sum) h.value })) := rfl

lemma scrapeFinalize_mem (app : List AppHolding) (r : AppHolding)
    (hr : r ∈ (scrapeFinalize app).holdings) :
    ∃ h ∈ app, r = { h with
      pct := pctApp ((app.map (fun x => x.value)).sum) h.value } := by
  rw [scrapeFinalize_holdings] at hr
  have hr' := (sortValDesc_perm (fun x : AppHolding => x.value) _).mem_iff.mp hr
  rcases List.mem_map.mp hr' with ⟨h, hh, rfl⟩
  exact ⟨h, hh, rfl⟩

/-! ### Claim theorems: filing totals, percentages, sorting -/

/-- C5 counterexample: the app-layer scraper rounds percentages to two
decimals, so with values 1 and 2 (total 3) the stored percentage of the
value-1 holding is a multiple of 1/100 and cannot satisfy pct · total =
value · 100 (3 does not divide 10000). -/
theorem scrapeFinalize_pct_rounding_counterexample :
    ¬ (∀ r ∈ (scrapeFinalize
        [⟨("c1"), none, ("A"), 1, 0, 0⟩, ⟨("c2"), none, ("B"), 2, 0, 0⟩]).holdings,
      r.pct * ((scrapeFinalize
        [⟨("c1"), none, ("A"), 1, 0, 0⟩,
         ⟨("c2"), none, ("B"), 2, 0, 0⟩]).totalValue : ℚ)
        = (r.value : ℚ) * 100) := by
  intro hall
  have hmem : (⟨("c1"), none, ("A"), 1, 0, pctApp 3 1⟩ : AppHolding)
      ∈ (scrapeFinalize
        [⟨("c1"), none, ("A"), 1, 0, 0⟩,
         ⟨("c2"), none, ("B"), 2, 0, 0⟩]).holdings :=
    List.mem_cons_of_mem _ (List.mem_cons_self _ _)
  have h1 := hall _ hmem
  have hne : pctApp 3 1 * ((3 : Nat) : ℚ) ≠ ((1 : Nat) : ℚ) * 100 := by
    simp only [pctApp, round2]
    rw [if_pos (by norm_num)]
    intro hk
    have h2 : ((round (((1 : Nat) : ℚ) / ((3 : Nat) : ℚ) * 100 * 100) : ℤ) : ℚ) * 3
        = 10000 := by
      field_simp at hk
      linarith
    have h3 : ((round (((1 : Nat) : ℚ) / ((3 : Nat) : ℚ) * 100 * 100) : ℤ) * 3)
        = (10000 : ℤ) := by exact_mod_cast h2
    omega
  exact hne h1

/-- C5 (amended): both finalization pipelines set the filing total to the
sum of the holding values (also when summed over the re-sorted output),
assign each holding the percentage value/total·100 — exactly in the SEC
scraper library, rounded to two decimals in the app layer — with 0
throughout when the total is 0, and sort the holdings descending by value,
keeping equal-valued holdings in original document order (stability, stated
as filter-preservation per value class). -/
theorem filing_finalize_spec (hs : List H13F) (app : List AppHolding) :
    ((getLatestFilingFinalize hs).totalValue
        = ((getLatestFilingFinalize hs).holdings.map (fun x => x.value)).sum) ∧
    (∀ r ∈ (getLatestFilingFinalize hs).holdings,
      ((getLatestFilingFinalize hs).totalValue = 0 → r.pctPortfolio = 0) ∧
      (0 < (getLatestFilingFinalize hs).totalValue →
        r.pctPortfolio * ((getLatestFilingFinalize hs).totalValue : ℚ)
          = (r.value : ℚ) * 100)) ∧
    ((getLatestFilingFinalize hs).holdings.Pairwise
      (fun a b => b.value ≤ a.value)) ∧
    (∀ v, (getLatestFilingFinalize hs).holdings.filter
        (fun r => decide (r.value = v))
      = (hs.filter (fun h => decide (h.value = v))).map
          (fun h => { h with
            pctPortfolio := pct13F ((hs.map (fun x => x.value)).sum) h.value })) ∧
    ((scrapeFinalize app).totalValue
        = ((scrapeFinalize app).holdings.map (fun x => x.value)).sum) ∧
    (∀ r ∈ (scrapeFinalize app).holdings,
      ((scrapeFinalize app).totalValue = 0 → r.pct = 0) ∧
      (0 < (scrapeFinalize app).totalValue →
        r.pct = round2 ((r.value : ℚ)
          / ((scrapeFinalize app).totalValue : ℚ) * 100))) ∧
    ((scrapeFinalize app).holdings.Pairwise (fun a b => b.value ≤ a.value)) ∧
    (∀ v, (scrapeFinalize app).holdings.filter
        (fun r => decide (r.value = v))
      = (app.filter (fun h => decide (h.value = v))).map
          (fun h => { h with
            pct := pctApp ((app.map (fun x => x.value)).sum) h.value })) := by
  refine ⟨?_, ?_, ?_, ?_, ?_, ?_, ?_, ?_⟩
  · rw [getLatestFilingFinalize_total, getLatestFilingFinalize_holdings]
    rw [((sortValDesc_perm (fun x : H13F => x.value)
        (hs.map (fun h => { h with
          pctPortfolio :=
            pct13F ((hs.map (fun x => x.value)).sum) h.value }))).map
      (fun x : H13F => x.value)).sum_eq, List.map_map]
    exact congrArg List.sum (List.map_congr_left (fun h _ => rfl))
  · intro r hr
    obtain ⟨h, hh, rfl⟩ := getLatestFilingFinalize_mem hs r hr
    rw [getLatestFilingFinalize_total]
    constructor
    · intro hT
      show pct13F ((hs.map (fun x => x.value)).sum) h.value = 0
      simp [pct13F, hT]
    · intro hT
      show pct13F ((hs.map (fun x => x.value)).sum) h.value
          * (((hs.map (fun x => x.value)).sum : Nat) : ℚ) = (h.value : ℚ) * 100
      have hTne : (((hs.map (fun x => x.value)).sum : Nat) : ℚ) ≠ 0 :=
        Nat.cast_ne_zero.mpr hT.ne'
      simp only [pct13F, if_pos hT]
      have hrw : (h.value : ℚ) / (((hs.map (fun x => x.value)).sum : Nat) : ℚ)
            * 100 * (((hs.map (fun x => x.value)).sum : Nat) : ℚ)
          = (h.value : ℚ) * 100
            * ((((hs.map (fun x => x.value)).sum : Nat) : ℚ)
              / (((hs.map (fun x => x.value)).sum : Nat) : ℚ)) := by ring
      rw [hrw, div_self hTne, mul_one]
  · rw [getLatestFilingFinalize_holdings]
    exact pairwise_sortValDesc (fun x : H13F => x.value) _
  · intro v
    rw [getLatestFilingFinalize_holdings, filter_sortValDesc, List.filter_map]
    rfl
  · rw [scrapeFinalize_total, scrapeFinalize_holdings]
    rw [((sortValDesc_perm (fun x : AppHolding => x.value)
        (app.map (fun h => { h with
          pct := pctApp ((app.map (fun x => x.value)).sum) h.value }))).map
      (fun x : AppHolding => x.value)).sum_eq, List.map_map]
    exact congrArg List.sum (List.map_congr_left (fun h _ => rfl))
  · intro r hr
    obtain ⟨h, hh, rfl⟩ := scrapeFinalize_mem app r hr
    rw [scrapeFinalize_total]
    constructor
    · intro hT
      show pctApp ((app.map (fun x => x.value)).sum) h.value = 0
      simp [pctApp, hT]
    · intro hT
      show pctApp ((app.map (fun x => x.value)).sum) h.value
          = round2 ((h.value : ℚ)
            / (((app.map (fun x => x.value)).sum : Nat) : ℚ) * 100)
      simp only [pctApp, if_pos hT]
  · rw [scrapeFinalize_holdings]
    exact pairwise_sortValDesc (fun x : AppHolding => x.value) _
  · intro v
    rw [scrapeFinalize_holdings, filter_sortValDesc, List.filter_map]
    rfl

/-- C5 (amended) witness: the exact-percentage leg evaluated on a
one-holding filing. -/
theorem filing_finalize_spec_witness :
    (⟨("A"), ("c"), 1, 1, pct13F 1 1⟩ : H13F).pctPortfolio
        * ((getLatestFilingFinalize [⟨("A"), ("c"), 1, 1, 0⟩]).totalValue : ℚ)
      = ((⟨("A"), ("c"), 1, 1, pct13F 1 1⟩ : H13F).value : ℚ) * 100 :=
  ((filing_finalize_spec [⟨("A"), ("c"), 1, 1, 0⟩] []).2.1
    ⟨("A"), ("c"), 1, 1, pct13F 1 1⟩ (List.mem_cons_self _ _)).2
    (by decide)

/-- C6: within one finalized filing the portfolio percentages sum to at
most 100 in the SEC scraper library (exactly 100 when the total is
positive), and to at most 100 plus the rounding allowance n/200 in the
app layer (n = number of holdings, each rounding step adding at most half
a cent); every percentage is exactly 0 when the filing total is 0. -/
theorem pct_sum_bound (hs : List H13F) (app : List AppHolding) :
    (((getLatestFilingFinalize hs).holdings.map
        (fun x => x.pctPortfolio)).sum ≤ 100) ∧
    ((getLatestFilingFinalize hs).totalValue = 0 →
      ∀ r ∈ (getLatestFilingFinalize hs).holdings, r.pctPortfolio = 0) ∧
    (((scrapeFinalize app).holdings.map (fun x => x.pct)).sum
        ≤ 100 + (app.length : ℚ) / 200) ∧
    ((scrapeFinalize app).totalValue = 0 →
      ∀ r ∈ (scrapeFinalize app).holdings, r.pct = 0) := by
  refine ⟨?_, ?_, ?_, ?_⟩
  · rw [getLatestFilingFinalize_holdings]
    rw [((sortValDesc_perm (fun x : H13F => x.value)
        (hs.map (fun h => { h with
          pctPortfolio :=
            pct13F ((hs.map (fun x => x.value)).sum) h.value }))).map
      (fun x : H13F => x.pctPortfolio)).sum_eq, List.map_map]
    have hmap : hs.map ((fun x : H13F => x.pctPortfolio) ∘ (fun h => { h with
          pctPortfolio := pct13F ((hs.map (fun x => x.value)).sum) h.value }))
        = hs.map (fun h =>
            pct13F ((hs.map (fun x => x.value)).sum) h.value) :=
      List.map_congr_left (fun h _ => rfl)
    rw [hmap]
    by_cases hT : 0 < (hs.map (fun x => x.value)).sum
    · have hTne : (((hs.map (fun x => x.value)).sum : Nat) : ℚ) ≠ 0 :=
        Nat.cast_ne_zero.mpr hT.ne'
      have hform : hs.map (fun h =>
            pct13F ((hs.map (fun x => x.value)).sum) h.value)
          = hs.map (fun h => (h.value : ℚ)
              * (100 / (((hs.map (fun x => x.value)).sum : Nat) : ℚ))) := by
        apply List.map_congr_left
        intro h _
        simp only [pct13F, if_pos hT]
        ring
      rw [hform, List.sum_map_mul_right, ← natCast_sum_map, mul_comm,
        div_mul_cancel₀ _ hTne]
    · have hT0 : (hs.map (fun x => x.value)).sum = 0 :=
        Nat.eq_zero_of_not_pos hT
      have hzero : hs.map (fun h =>
            pct13F ((hs.map (fun x => x.value)).sum) h.value)
          = hs.map (fun _ => (0 : ℚ)) := by
        apply List.map_congr_left
        intro h _
        simp [pct13F, hT0]
      rw [hzero, sum_map_const]
      norm_num
  · intro hT r hr
    obtain ⟨h, hh, rfl⟩ := getLatestFilingFinalize_mem hs r hr
    rw [getLatestFilingFinalize_total] at hT
    show pct13F ((hs.map (fun x => x.value)).sum) h.value = 0
    simp [pct13F, hT]
  · rw [scrapeFinalize_holdings]
    rw [((sortValDesc_perm (fun x : AppHolding => x.value)
        (app.map (fun h => { h with
          pct := pctApp ((app.map (fun x => x.value)).sum) h.value }))).map
      (fun x : AppHolding => x.pct)).sum_eq, List.map_map]
    have hmap : app.map ((fun x : AppHolding => x.pct) ∘ (fun h => { h with
          pct := pctApp ((app.map (fun x => x.value)).sum) h.value }))
        = app.map (fun h =>
            pctApp ((app.map (fun x => x.value)).sum) h.value) :=
      List.map_congr_left (fun h _ => rfl)
    rw [hmap]
    by_cases hT : 0 < (app.map (fun x => x.value)).sum
    · have hTne : (((app.map (fun x => x.value)).sum : Nat) : ℚ) ≠ 0 :=
        Nat.cast_ne_zero.mpr hT.ne'
      have hbound : ∀ h ∈ app,
          pctApp ((app.map (fun x => x.value)).sum) h.value
            ≤ (h.value : ℚ)
                / (((app.map (fun x => x.value)).sum : Nat) : ℚ) * 100
              + 1 / 200 := by
        intro h _
        simp only [pctApp, if_pos hT]
        exact round2_le _
      have hle : (app.map (fun h =>
            pctApp ((app.map (fun x => x.value)).sum) h.value)).sum
          ≤ (app.map (fun h => (h.value : ℚ)
              / (((app.map (fun x => x.value)).sum : Nat) : ℚ) * 100
                + 1 / 200)).sum :=
        List.sum_le_sum hbound
      refine le_trans hle ?_
      rw [sum_map_add app
        (fun h => (h.value : ℚ)
          / (((app.map (fun x => x.value)).sum : Nat) : ℚ) * 100)
        (fun _ => (1 : ℚ) / 200), sum_map_const]
      have h100 : (app.map (fun h => (h.value : ℚ)
          / (((app.map (fun x => x.value)).sum : Nat) : ℚ) * 100)).sum
          = 100 := by
        have hform : app.map (fun h => (h.value : ℚ)
              / (((app.map (fun x => x.value)).sum : Nat) : ℚ) * 100)
            = app.map (fun h => (h.value : ℚ)
                * (100 / (((app.map (fun x => x.value)).sum : Nat) : ℚ))) :=
          List.map_congr_left (fun h _ => by ring)
        rw [hform, List.sum_map_mul_right, ← natCast_sum_map, mul_comm,
          div_mul_cancel₀ _ hTne]
      rw [h100]
      have hconv : (app.length : ℚ) * (1 / 200) = (app.length : ℚ) / 200 := by
        ring
      rw [hconv]
    · have hT0 : (app.map (fun x => x.value)).sum = 0 :=
        Nat.eq_zero_of_not_pos hT
      have hzero : app.map (fun h =>
            pctApp ((app.map (fun x => x.value)).sum) h.value)
          = app.map (fun _ => (0 : ℚ)) := by
        apply List.map_congr_left
        intro h _
        simp [pctApp, hT0]
      rw [hzero, sum_map_const]
      have hnn : (0 : ℚ) ≤ (app.length : ℚ) / 200 := by positivity
      nlinarith [hnn]
  · intro hT r hr
    obtain ⟨h, hh, rfl⟩ := scrapeFinalize_mem app r hr
    rw [scrapeFinalize_total] at hT
    show pctApp ((app.map (fun x => x.value)).sum) h.value = 0
    simp [pctApp, hT]

/-- C6 witness: a zero-value filing evaluated through the zero-total leg of
the theorem. -/
theorem pct_sum_bound_witness :
    (⟨("Z"), ("c"), 0, 0, pct13F 0 0⟩ : H13F).pctPortfolio = 0 :=
  (pct_sum_bound [⟨("Z"), ("c"), 0, 0, 0⟩] []).2.1 (by decide)
    ⟨("Z"), ("c"), 0, 0, pct13F 0 0⟩ (List.mem_cons_self _ _)

/-! ### Supporting lemmas: the refresh loop -/

lemma dictInsert_key_preserved {κ β : Type} [DecidableEq κ]
    (d : List (κ × β)) (k k' : κ) (v : β)
    (h : ∃ r, (k, r) ∈ d) : ∃ r, (k, r) ∈ dictInsert d k' v := by
  obtain ⟨r, hr⟩ := h
  unfold dictInsert
  by_cases hc : d.any (fun kv => decide (kv.1 = k')) = true
  · rw [if_pos hc]
    by_cases hk : k = k'
    · subst hk
      refine ⟨v, ?_⟩
      have := List.mem_map_of_mem
        (fun kv : κ × β => if kv.1 = k then (k, v) else kv) hr
      simpa using this
    · refine ⟨r, ?_⟩
      have := List.mem_map_of_mem
        (fun kv : κ × β => if kv.1 = k' then (k', v) else kv) hr
      simpa [hk] using this
  · rw [if_neg hc]
    exact ⟨r, List.mem_append_left _ hr⟩

lemma dictInsert_key_inserted {κ β : Type} [DecidableEq κ]
    (d : List (κ × β)) (k : κ) (v : β) :
    ∃ r, (k, r) ∈ dictInsert d k v := by
  unfold dictInsert
  by_cases hc : d.any (fun kv => decide (kv.1 = k)) = true
  · rw [if_pos hc]
    rcases List.any_eq_true.mp hc with ⟨kv, hkv, he⟩
    rw [decide_eq_true_eq] at he
    refine ⟨v, ?_⟩
    have := List.mem_map_of_mem
      (fun kv : κ × β => if kv.1 = k then (k, v) else kv) hkv
    simpa [he] using this
  · rw [if_neg hc]
    exact ⟨v, List.mem_append_right _ (List.mem_cons_self _ _)⟩

lemma scrapeOne_empty (parsed : List AppHolding)
    (hp : parsed.isEmpty = true) :
    scrapeOne parsed = (none, some ("No holdings parsed")) := by
  unfold scrapeOne
  rw [if_pos hp]

lemma scrapeOne_nonempty (parsed : List AppHolding)
    (hp : parsed.isEmpty = false) :
    scrapeOne parsed = (some (scrapeFinalize parsed), none) := by
  unfold scrapeOne
  rw [if_neg (by simp [hp])]

lemma refresh_failed_foldl : ∀ (l : List Entity) (st : RefreshState),
    (l.foldl refreshStep st).failed
      = st.failed ++ l.filterMap (fun e =>
          if e.parsed.isEmpty then
            some (e.cik, e.info.name, ("No holdings parsed" : String))
          else none) := by
  intro l
  induction l with
  | nil =>
      intro st
      simp
  | cons e es ih =>
      intro st
      rw [List.foldl_cons, ih, List.filterMap_cons]
      by_cases hp : e.parsed.isEmpty = true
      · have hstep : (refreshStep st e).failed
            = st.failed ++ [(e.cik, e.info.name,
                ("No holdings parsed" : String))] := by
          unfold refreshStep
          rw [scrapeOne_empty e.parsed hp]
          rfl
        rw [hstep]
        simp [hp]
      · have hp' : e.parsed.isEmpty = false := by
          simpa using hp
        have hstep : (refreshStep st e).failed = st.failed := by
          unfold refreshStep
          rw [scrapeOne_nonempty e.parsed hp']
        rw [hstep]
        simp [hp']

lemma refresh_details_step (st : RefreshState) (e : Entity) (c : String)
    (h : ∃ r, (c, r) ∈ st.details) :
    ∃ r, (c, r) ∈ (refreshStep st e).details := by
  unfold refreshStep
  by_cases hp : e.parsed.isEmpty = true
  · rw [scrapeOne_empty e.parsed hp]
    exact h
  · rw [scrapeOne_nonempty e.parsed (by simpa using hp)]
    exact dictInsert_key_preserved st.details c e.cik _ h

lemma refresh_details_foldl : ∀ (l : List Entity) (st : RefreshState)
    (c : String), (∃ r, (c, r) ∈ st.details) →
    ∃ r, (c, r) ∈ (l.foldl refreshStep st).details := by
  intro l
  induction l with
  | nil =>
      intro st c h
      exact h
  | cons e es ih =>
      intro st c h
      rw [List.foldl_cons]
      exact ih _ c (refresh_details_step st e c h)

lemma refresh_details_mem : ∀ (l : List Entity) (st : RefreshState)
    (e : Entity), e ∈ l → e.parsed.isEmpty = false →
    ∃ r, (e.cik, r) ∈ (l.foldl refreshStep st).details := by
  intro l
  induction l with
  | nil =>
      intro st e he
      cases he
  | cons x xs ih =>
      intro st e he hne
      rw [List.foldl_cons]
      rcases List.mem_cons.mp he with rfl | hmem
      · apply refresh_details_foldl xs
        unfold refreshStep
        rw [scrapeOne_nonempty e.parsed hne]
        exact dictInsert_key_inserted st.details e.cik _
      · exact ih _ e hmem hne

/-! ### Claim theorems: non-fatal failures and batch continuation -/

/-- C8: a tokenized document with zero parsed holdings makes `scrape_one`
return the non-fatal `(None, "No holdings parsed")` value (the embedding is
a total function — every failure path of the Python code returns a pair
rather than letting an exception escape); the refresh loop records exactly
one failure entry, in order, for every failing entity and still stores a
result under the cik of every succeeding entity, wherever it sits in the
batch. -/
theorem scrape_refresh_nonfatal (entities : List Entity) :
    (scrapeOne [] = ((none : Option ScrapeResult),
        some ("No holdings parsed"))) ∧
    ((doFullRefresh entities).failed
      = entities.filterMap (fun e =>
          if e.parsed.isEmpty then
            some (e.cik, e.info.name, ("No holdings parsed" : String))
          else none)) ∧
    (∀ e ∈ entities, e.parsed.isEmpty = false →
      ∃ r, (e.cik, r) ∈ (doFullRefresh entities).details) := by
  refine ⟨rfl, ?_, ?_⟩
  · unfold doFullRefresh
    rw [refresh_failed_foldl entities ⟨[], []⟩]
    rfl
  · intro e he hne
    exact refresh_details_mem entities ⟨[], []⟩ e he hne

/-- C8 witness: a two-entity batch — a failing entity followed by a
succeeding one — through the theorem's continuation leg. -/
theorem scrape_refresh_nonfatal_witness :
    ∃ r, (("2" : String), r) ∈ (doFullRefresh
      [⟨("1"), ⟨("N1"), ("F1")⟩, []⟩,
       ⟨("2"), ⟨("N2"), ("F2")⟩, [⟨("c"), none, ("A"), 1, 1, 0⟩]⟩]).details :=
  (scrape_refresh_nonfatal
      [⟨("1"), ⟨("N1"), ("F1")⟩, []⟩,
       ⟨("2"), ⟨("N2"), ("F2")⟩, [⟨("c"), none, ("A"), 1, 1, 0⟩]⟩]).2.2
    ⟨("2"), ⟨("N2"), ("F2")⟩, [⟨("c"), none, ("A"), 1, 1, 0⟩]⟩
    (List.mem_cons_of_mem _ (List.mem_cons_self _ _)) rfl
